import Mathlib

/-!
A formal model of the `jsonpatch` Go package: the RFC 6902 patch generator
consisting of `CreatePatch` / `CreatePatchFromBytes`, the recursive diff
engine (`handleValues`, `diff`), the array differ (`isSimpleArray`,
`compareEditDistance`, `backtrace`), the deep-equality predicate
(`matchesValue`), the RFC 6901 path codec (`makePath`, `makePathInt`,
`rfc6901Encoder`) and the operation serializer (`Operation.MarshalJSON`).

Decoded Go JSON values (`any` holding `nil`, `bool`, `float64`, `string`,
`map[string]any`, `[]any`) are modelled by the inductive type `JValue`;
Go maps are modelled as association lists, which makes the map iteration
order that Go exposes during `range` an explicit part of the representation.
Numbers are modelled by `Rat` (the engine only ever compares them for
equality).  Functions returning `(T, error)` in Go are modelled as pairs
`T × Option String`.
-/

set_option maxHeartbeats 1000000

/-- A decoded JSON value as held in a Go `any`:
`nil`, `bool`, `float64`, `string`, `map[string]any` (association list,
carrying the iteration order), or `[]any`. -/
inductive JValue : Type where
  | null : JValue
  | bool (b : Bool) : JValue
  | num (q : Rat) : JValue
  | str (s : String) : JValue
  | obj (l : List (String × JValue)) : JValue
  | arr (l : List JValue) : JValue

/-- Go's `m[key]` one-result map read: the zero value of `any` is `nil`,
so a missing key reads as JSON null. -/
def lookupJ (l : List (String × JValue)) (k : String) : JValue :=
  match l with
  | [] => JValue.null
  | (k', v) :: rest => if k' = k then v else lookupJ rest k

/-- Go's `v, ok := m[key]` two-result map read. -/
def lookupJOpt (l : List (String × JValue)) (k : String) : Option JValue :=
  match l with
  | [] => none
  | (k', v) :: rest => if k' = k then some v else lookupJOpt rest k

/-- Go's `s[i]` slice read, defaulting to JSON null out of bounds
(the Go code only indexes in bounds). -/
def nthJ (l : List JValue) (i : Nat) : JValue :=
  (l.get? i).getD JValue.null

theorem jlist_sizeOf_pos (l : List JValue) : 0 < sizeOf l := by
  cases l <;> simp

theorem plist_sizeOf_pos (l : List (String × JValue)) : 0 < sizeOf l := by
  cases l <;> simp

theorem lookupJ_sizeOf (l : List (String × JValue)) (k : String) :
    sizeOf (lookupJ l k) < 1 + sizeOf l := by
  induction l with
  | nil => simp [lookupJ]
  | cons hd tl ih =>
    obtain ⟨k', v⟩ := hd
    by_cases h : k' = k
    · simp only [lookupJ, if_pos h]
      simp
      omega
    · simp only [lookupJ, if_neg h]
      simp only [List.cons.sizeOf_spec, Prod.mk.sizeOf_spec]
      omega

theorem lookupJOpt_sizeOf {l : List (String × JValue)} {k : String} {v : JValue}
    (h : lookupJOpt l k = some v) : sizeOf v < sizeOf l := by
  induction l with
  | nil => simp [lookupJOpt] at h
  | cons hd tl ih =>
    obtain ⟨k', w⟩ := hd
    by_cases hk : k' = k
    · simp only [lookupJOpt, if_pos hk, Option.some.injEq] at h
      subst h
      simp
      omega
    · simp only [lookupJOpt, if_neg hk] at h
      have := ih h
      simp only [List.cons.sizeOf_spec, Prod.mk.sizeOf_spec]
      omega

theorem nthJ_sizeOf (l : List JValue) (i : Nat) :
    sizeOf (nthJ l i) < 1 + sizeOf l := by
  unfold nthJ
  match h : l.get? i with
  | none =>
    have := jlist_sizeOf_pos l
    simp only [h, Option.getD_none]
    simp
    omega
  | some v =>
    have hv : v ∈ l := List.get?_mem h
    simp only [h, Option.getD_some]
    have : sizeOf v < sizeOf l := List.sizeOf_lt_of_mem hv
    omega

/-- `matchesValue` from the Go source: deep equality used as the
edit-distance match predicate.  A `nil` first argument matches no case of
the Go type switch, so the function falls through to `return false`.
For maps, both key ranges are scanned comparing `at[key]` with `bt[key]`
(missing keys read as `nil`); for slices, lengths must agree and both
index ranges are scanned. -/
def matchesValue (av bv : JValue) : Bool :=
  match av, bv with
  | JValue.str a, JValue.str b => a = b
  | JValue.num a, JValue.num b => a = b
  | JValue.bool a, JValue.bool b => a = b
  | JValue.obj la, JValue.obj lb =>
      (la.all fun kv => matchesValue (lookupJ la kv.1) (lookupJ lb kv.1)) &&
      (lb.all fun kv => matchesValue (lookupJ la kv.1) (lookupJ lb kv.1))
  | JValue.arr la, JValue.arr lb =>
      if lb.length = la.length then
        ((List.range la.length).all fun i => matchesValue (nthJ la i) (nthJ lb i)) &&
        ((List.range lb.length).all fun i => matchesValue (nthJ la i) (nthJ lb i))
      else false
  | _, _ => false
termination_by sizeOf av
decreasing_by
  all_goals simp only [JValue.obj.sizeOf_spec, JValue.arr.sizeOf_spec]
  · exact lookupJ_sizeOf la kv.1
  · exact lookupJ_sizeOf la kv.1
  · exact nthJ_sizeOf la i
  · exact nthJ_sizeOf la i

/-- `rfc6901Encoder` from the Go source: `strings.NewReplacer("~", "~0",
"/", "~1")` applied to a path segment, modelled character by character. -/
def rfc6901Encoder (cs : List Char) : List Char :=
  match cs with
  | [] => []
  | '~' :: rest => '~' :: '0' :: rfc6901Encoder rest
  | '/' :: rest => '~' :: '1' :: rfc6901Encoder rest
  | c :: rest => c :: rfc6901Encoder rest

/-- `makePath` from the Go source: append an RFC 6901-encoded segment to a
path prefix, writing a `/` separator unless the prefix is empty or already
ends with `/` (`strings.HasSuffix(path, "/")`). -/
def makePath (path : String) (newPart : String) : String :=
  if path = "" then "/" ++ String.mk (rfc6901Encoder newPart.data)
  else if path.data.getLast? = some '/' then path ++ String.mk (rfc6901Encoder newPart.data)
  else path ++ "/" ++ String.mk (rfc6901Encoder newPart.data)

/-- `makePathInt` from the Go source (`strconv.Itoa` on a non-negative
slice index). -/
def makePathInt (path : String) (newPart : Nat) : String :=
  makePath path (toString newPart)

/-- The `Operation` struct from the Go source.  Go stores the value in an
`any`, where JSON null and the absent zero value are both `nil`; `JValue.null`
plays that role here. -/
structure Operation : Type where
  op : String
  path : String
  value : JValue

/-- `NewOperation` from the Go source. -/
def NewOperation (op path : String) (value : JValue) : Operation :=
  Operation.mk op path value

/-- `typesAreCompatible` from the Go source: a type switch on the first
argument; `nil` matches no case and falls through to `return false`. -/
def typesAreCompatible (av bv : JValue) : Bool :=
  match av with
  | JValue.obj _ => match bv with | JValue.obj _ => true | _ => false
  | JValue.str _ | JValue.num _ | JValue.bool _ =>
      match bv with
      | JValue.str _ | JValue.num _ | JValue.bool _ => true
      | _ => false
  | JValue.arr _ => match bv with | JValue.arr _ => true | _ => false
  | JValue.null => false

/-- `isBasicType` from the Go source: string, float64 or bool. -/
def isBasicType (a : JValue) : Bool :=
  match a with
  | JValue.str _ | JValue.num _ | JValue.bool _ => true
  | _ => false

/-- The inner scan of `isSimpleArray`'s map case: every map value is `nil`
or a basic type. -/
def allValuesBasicOrNull (m : List (String × JValue)) : Bool :=
  m.all fun kv =>
    match kv.2 with
    | JValue.null => true
    | v => isBasicType v

/-- `isSimpleArray` from the Go source: scan the elements; scalars continue
the scan, the first map element decides the whole array by the flatness of
its values (returning immediately), a slice element or any other kind
(including `nil`) returns false immediately. -/
def isSimpleArray (a : List JValue) : Bool :=
  match a with
  | [] => true
  | x :: rest =>
    match x with
    | JValue.str _ | JValue.num _ | JValue.bool _ => isSimpleArray rest
    | JValue.obj m => allValuesBasicOrNull m
    | JValue.arr _ => false
    | JValue.null => false

/-- `min` from the Go source. -/
def minInt (x y : Nat) : Nat :=
  if y < x then y else x

/-- The Wagner-Fischer matrix of `compareEditDistance` from the Go source:
`d[i][0] = i`, `d[0][j] = j`, and for `i,j ≥ 1` the cell is `d[i-1][j-1]`
on a `matchesValue` match, else `min(rep, min(add, del))` of the three
neighbours plus one. -/
def editMatrix (s t : List JValue) : Nat → Nat → Nat
  | i, 0 => i
  | 0, j + 1 => j + 1
  | i + 1, j + 1 =>
    if matchesValue (nthJ s i) (nthJ t j) then
      editMatrix s t i j
    else
      minInt (editMatrix s t i j + 1)
        (minInt (editMatrix s t (i + 1) j + 1) (editMatrix s t i (j + 1) + 1))

/-- The `remove` loop of `handleValues`' positional array branch: Go's
`for i := len(at) - 1; i >= n; i--`, emitting `remove` at the indices
`n + count - 1, …, n` in descending order. -/
def removesDesc (p : String) (n : Nat) : Nat → List Operation
  | 0 => []
  | count + 1 =>
      NewOperation "remove" (makePathInt p (n + count)) JValue.null ::
        removesDesc p n count

/-- The `add` loop of `handleValues`' positional array branch: Go's
`for i := n; i < len(bt); i++`, emitting `add` at ascending indices. -/
def addsAsc (bt : List JValue) (p : String) : Nat → Nat → List Operation
  | _, 0 => []
  | i, count + 1 =>
      NewOperation "add" (makePathInt p i) (nthJ bt i) :: addsAsc bt p (i + 1) count

theorem lexNat {a b c d : Nat} (h : a < c ∨ (a = c ∧ b < d)) :
    Prod.Lex (fun x y => x < y) (fun x y => x < y) (a, b) (c, d) := by
  rcases h with h | ⟨h1, h2⟩
  · exact Prod.Lex.left _ _ h
  · subst h1
    exact Prod.Lex.right _ h2

mutual

/-- `handleValues` from the Go source: the value dispatcher.  Both-`nil`
is a no-op; incompatible kinds emit a single `replace` carrying `bv`;
objects delegate to `diff`; scalars emit `replace` unless `matchesValue`;
arrays use the edit-distance path when both sides are simple and the
positional path otherwise.  The final arm is unreachable (Go would panic
on a kind outside the model, and `av = nil` is caught by the two guards). -/
def handleValues (av bv : JValue) (p : String) (patch : List Operation) :
    List Operation × Option String :=
  match av, bv with
  | JValue.null, JValue.null => (patch, none)
  | JValue.obj la, JValue.obj lb => diff la lb p patch
  | JValue.arr la, JValue.arr lb =>
    if isSimpleArray la && isSimpleArray lb then
      (patch ++ compareEditDistance la lb p, none)
    else
      alignLoop la lb p
        (patch ++
          removesDesc p (minInt la.length lb.length)
            (la.length - minInt la.length lb.length) ++
          addsAsc lb p (minInt la.length lb.length)
            (lb.length - minInt la.length lb.length))
        0 (minInt la.length lb.length)
  | _, _ =>
    if !typesAreCompatible av bv then
      (patch ++ [NewOperation "replace" p bv], none)
    else
      if !matchesValue av bv then
        (patch ++ [NewOperation "replace" p bv], none)
      else (patch, none)
termination_by (sizeOf av + sizeOf bv, 0)
decreasing_by
  all_goals simp_wf
  all_goals try simp only [JValue.obj.sizeOf_spec, JValue.arr.sizeOf_spec,
    List.cons.sizeOf_spec, Prod.mk.sizeOf_spec]
  all_goals (apply lexNat; omega)

/-- `diff` from the Go source: run the target-keyed loop (`diffLoop`), then
append a `remove` for every source key absent from the target, in source
iteration order; an error from the loop is returned as `(nil, err)`. -/
def diff (la lb : List (String × JValue)) (p : String) (patch : List Operation) :
    List Operation × Option String :=
  match diff.loopB la lb p patch with
  | (patch2, none) =>
      (patch2 ++
        (la.filter fun kv => (lookupJOpt lb kv.1).isNone).map
          (fun kv => NewOperation "remove" (makePath p kv.1) JValue.null),
        none)
  | (_, some e) => ([], some e)
termination_by (sizeOf la + sizeOf lb, 3)
decreasing_by
  all_goals simp_wf
  all_goals try simp only [JValue.obj.sizeOf_spec, JValue.arr.sizeOf_spec,
    List.cons.sizeOf_spec, Prod.mk.sizeOf_spec]
  all_goals (apply lexNat; omega)

/-- The first loop of `diff`: `for key, bv := range b`.  A key absent from
the source emits `add` with the whole target value; a key present in both
recurses through `handleValues`, returning `(nil, err)` on error. -/
def diff.loopB (la lb : List (String × JValue)) (p : String)
    (patch : List Operation) : List Operation × Option String :=
  match lb with
  | [] => (patch, none)
  | (key, bv) :: rest =>
    match h : lookupJOpt la key with
    | none => diff.loopB la rest p (patch ++ [NewOperation "add" (makePath p key) bv])
    | some av =>
      match handleValues av bv (makePath p key) patch with
      | (patch2, none) => diff.loopB la rest p patch2
      | (_, some e) => ([], some e)
termination_by (sizeOf la + sizeOf lb, 2)
decreasing_by
  all_goals simp_wf
  all_goals try simp only [JValue.obj.sizeOf_spec, JValue.arr.sizeOf_spec,
    List.cons.sizeOf_spec, Prod.mk.sizeOf_spec]
  all_goals
    first
    | (apply lexNat; omega)
    | (have hav := lookupJOpt_sizeOf h; apply lexNat; omega)

/-- The index-aligned loop of `handleValues`' positional array branch:
`for i := 0; i < n; i++`, recursing through `handleValues` at `p/i` and
returning `(nil, err)` on error. -/
def alignLoop (la lb : List JValue) (p : String) (patch : List Operation)
    (i count : Nat) : List Operation × Option String :=
  match count with
  | 0 => (patch, none)
  | c + 1 =>
    match handleValues (nthJ la i) (nthJ lb i) (makePathInt p i) patch with
    | (patch2, none) => alignLoop la lb p patch2 (i + 1) c
    | (_, some e) => ([], some e)
termination_by (sizeOf la + sizeOf lb, count)
decreasing_by
  all_goals simp_wf
  all_goals try simp only [JValue.obj.sizeOf_spec, JValue.arr.sizeOf_spec,
    List.cons.sizeOf_spec, Prod.mk.sizeOf_spec]
  all_goals
    first
    | (apply lexNat; omega)
    | (have e1 := nthJ_sizeOf la i; have e2 := nthJ_sizeOf lb i; apply lexNat; omega)

/-- `compareEditDistance` from the Go source: build the Wagner-Fischer
matrix (modelled by `editMatrix`) and reconstruct operations by `backtrace`
from cell `(m, n)`. -/
def compareEditDistance (s t : List JValue) (p : String) : List Operation :=
  backtrace s t p s.length t.length
termination_by (sizeOf s + sizeOf t, 1 + s.length + t.length)
decreasing_by
  all_goals simp_wf
  all_goals try simp only [JValue.obj.sizeOf_spec, JValue.arr.sizeOf_spec,
    List.cons.sizeOf_spec, Prod.mk.sizeOf_spec]
  all_goals (apply lexNat; omega)

/-- `backtrace` from the Go source.  Branch priority: remove
(`d[i-1][j]+1 = d[i][j]`), then add (`d[i][j-1]+1 = d[i][j]`, inserting at
index `i` with value `t[j-1]`), then substitution
(`d[i-1][j-1]+1 = d[i][j]`: a single `replace` at index `i-1` when `s[0]`
is basic, otherwise the operations of `handleValues` on the aligned pair,
its error discarded), then the matching diagonal, else stop. -/
def backtrace (s t : List JValue) (p : String) (i j : Nat) : List Operation :=
  if h1 : 0 < i ∧ editMatrix s t (i - 1) j + 1 = editMatrix s t i j then
    NewOperation "remove" (makePathInt p (i - 1)) JValue.null ::
      backtrace s t p (i - 1) j
  else if h2 : 0 < j ∧ editMatrix s t i (j - 1) + 1 = editMatrix s t i j then
    NewOperation "add" (makePathInt p i) (nthJ t (j - 1)) ::
      backtrace s t p i (j - 1)
  else if h3 : 0 < i ∧ 0 < j ∧ editMatrix s t (i - 1) (j - 1) + 1 = editMatrix s t i j then
    if isBasicType (nthJ s 0) then
      NewOperation "replace" (makePathInt p (i - 1)) (nthJ t (j - 1)) ::
        backtrace s t p (i - 1) (j - 1)
    else
      (handleValues (nthJ s (i - 1)) (nthJ t (j - 1)) (makePathInt p (i - 1)) []).1 ++
        backtrace s t p (i - 1) (j - 1)
  else if h4 : 0 < i ∧ 0 < j ∧ editMatrix s t (i - 1) (j - 1) = editMatrix s t i j then
    backtrace s t p (i - 1) (j - 1)
  else
    []
termination_by (sizeOf s + sizeOf t, i + j)
decreasing_by
  all_goals simp_wf
  all_goals try simp only [JValue.obj.sizeOf_spec, JValue.arr.sizeOf_spec,
    List.cons.sizeOf_spec, Prod.mk.sizeOf_spec]
  all_goals
    first
    | (apply lexNat; omega)
    | (have e1 := nthJ_sizeOf s (i - 1); have e2 := nthJ_sizeOf t (j - 1);
       apply lexNat; omega)

end

/-- `CreatePatch` from the Go source. -/
def CreatePatch (a b : JValue) : List Operation × Option String :=
  handleValues a b "" []

/-- `errBadJSONDoc` from the Go source. -/
def errBadJSONDoc : String := "invalid JSON Document"

/-- `CreatePatchFromBytes` from the Go source.  The two `json.Unmarshal`
calls are external collaborators (out of the model); their outcomes are the
`Option JValue` inputs: `none` models a byte slice that fails to decode,
`some v` a successful decode to `v`. -/
def CreatePatchFromBytes (pa pb : Option JValue) : Except String (List Operation) :=
  match pa with
  | none => Except.error errBadJSONDoc
  | some a =>
    match pb with
    | none => Except.error errBadJSONDoc
    | some b =>
      match CreatePatch a b with
      | (ops, none) => Except.ok ops
      | (_, some e) => Except.error e

theorem pairMem_sizeOf {l : List (String × JValue)} {kv : String × JValue}
    (h : kv ∈ l) : sizeOf kv.2 < sizeOf l := by
  have hm := List.sizeOf_lt_of_mem h
  obtain ⟨a, b⟩ := kv
  simp at hm ⊢
  omega

/-- Is this value Go `nil` (JSON null / the absent zero value of `any`)? -/
def isNullJ : JValue → Bool
  | JValue.null => true
  | _ => false

/-- The six JSON kinds of the spec's data model. -/
inductive JKind : Type where
  | nullK : JKind
  | boolK : JKind
  | numK : JKind
  | strK : JKind
  | objK : JKind
  | arrK : JKind
deriving DecidableEq

/-- The kind of a decoded value. -/
def kindOf : JValue → JKind
  | JValue.null => JKind.nullK
  | JValue.bool _ => JKind.boolK
  | JValue.num _ => JKind.numK
  | JValue.str _ => JKind.strK
  | JValue.obj _ => JKind.objK
  | JValue.arr _ => JKind.arrK

/-- Scalar kinds: string, number, boolean. -/
def isScalarKind : JKind → Bool
  | JKind.strK | JKind.numK | JKind.boolK => true
  | _ => false

/-- Modelled from the spec's compatibility rule (§4.1): object only with
object, array only with array, any scalar kind with any scalar kind, null
with nothing (the both-null pair is dispatched by the prior no-op case). -/
def kindCompatible (ka kb : JKind) : Bool :=
  match ka, kb with
  | JKind.objK, JKind.objK => true
  | JKind.arrK, JKind.arrK => true
  | ka, kb => isScalarKind ka && isScalarKind kb

/-- Modelled from the spec's glossary: a flat object has only scalar or
null values. -/
def flatObject (m : List (String × JValue)) : Bool :=
  m.all fun kv => isScalarKind (kindOf kv.2) || isNullJ kv.2

/-- Modelled from the claim's description of the homogeneity test: every
element scanned must be a scalar, the scan stopping at the first element
of object or array kind — a flat first-object classifies the whole array
simple, an array element classifies it non-simple; a scanned non-scalar
(null) makes it non-simple. -/
def specSimpleArray : List JValue → Bool
  | [] => true
  | x :: rest =>
    if isScalarKind (kindOf x) then specSimpleArray rest
    else
      match x with
      | JValue.obj m => flatObject m
      | _ => false

/-- Modelled from the spec: JSON value equality (key order and whitespace
insignificant), the ordinary equality of JSON documents. -/
def jeq (a b : JValue) : Bool :=
  match a, b with
  | JValue.null, JValue.null => true
  | JValue.bool x, JValue.bool y => x = y
  | JValue.num x, JValue.num y => x = y
  | JValue.str x, JValue.str y => x = y
  | JValue.arr la, JValue.arr lb =>
      (la.length = lb.length) &&
      ((List.range la.length).all fun i => jeq (nthJ la i) (nthJ lb i))
  | JValue.obj la, JValue.obj lb =>
      (la.attach.all fun kv =>
        match h : lookupJOpt lb kv.1.1 with
        | some v => jeq kv.1.2 v
        | none => false) &&
      (lb.attach.all fun kv =>
        match h : lookupJOpt la kv.1.1 with
        | some v => jeq v kv.1.2
        | none => false)
  | _, _ => false
termination_by sizeOf a + sizeOf b
decreasing_by
  all_goals simp only [JValue.obj.sizeOf_spec, JValue.arr.sizeOf_spec]
  · have e1 := nthJ_sizeOf la i
    have e2 := nthJ_sizeOf lb i
    omega
  · have e1 := pairMem_sizeOf kv.2
    have e2 := lookupJOpt_sizeOf h
    omega
  · have e1 := pairMem_sizeOf kv.2
    have e2 := lookupJOpt_sizeOf h
    omega

/-- The textual JSON encoding of a value, standing in for `json.Marshal`
of an operation's `Value` field (an external collaborator; number and
string formatting details are outside the model, field presence and `null`
are what matter here). -/
def serializeJValue (v : JValue) : String :=
  match v with
  | JValue.null => "null"
  | JValue.bool b => if b then "true" else "false"
  | JValue.num q => toString q
  | JValue.str s => "\"" ++ s ++ "\""
  | JValue.obj l =>
      "\x7b" ++ String.intercalate ","
        (l.attach.map fun kv => "\"" ++ kv.1.1 ++ "\":" ++ serializeJValue kv.1.2) ++ "\x7d"
  | JValue.arr l =>
      "[" ++ String.intercalate "," (l.attach.map fun x => serializeJValue x.1) ++ "]"
termination_by sizeOf v
decreasing_by
  all_goals simp only [JValue.obj.sizeOf_spec, JValue.arr.sizeOf_spec]
  · have e1 := pairMem_sizeOf kv.2
    omega
  · have e1 := List.sizeOf_lt_of_mem x.2
    omega

/-- The serialization condition of `Operation.MarshalJSON`:
`j.Value != nil || j.Operation == "replace" || j.Operation == "add"`. -/
def marshalEmitsValue (o : Operation) : Bool :=
  !isNullJ o.value || o.op = "replace" || o.op = "add"

/-- `Operation.MarshalJSON` from the Go source, one byte-buffer write at a
time: `op` and `path` always, and the `value` member exactly when
`marshalEmitsValue` holds. -/
def MarshalJSON (o : Operation) : String :=
  "\x7b" ++ "\"op\":\"" ++ o.op ++ "\"" ++ ",\"path\":\"" ++ o.path ++ "\"" ++
    (if marshalEmitsValue o then ",\"value\":" ++ serializeJValue o.value else "") ++
    "\x7d"

/-- The members of the JSON object written by `Operation.MarshalJSON`,
as (key, encoded value) pairs in emission order. -/
def marshalFields (o : Operation) : List (String × String) :=
  [("op", "\"" ++ o.op ++ "\""), ("path", "\"" ++ o.path ++ "\"")] ++
    (if marshalEmitsValue o then [("value", serializeJValue o.value)] else [])

/-- Modelled from the spec: RFC 6901 escape decoding, first pass
(`~1` to `/`). -/
def rfc6901Unescape1 : List Char → List Char
  | [] => []
  | '~' :: '1' :: rest => '/' :: rfc6901Unescape1 rest
  | c :: rest => c :: rfc6901Unescape1 rest

/-- Modelled from the spec: RFC 6901 escape decoding, second pass
(`~0` to `~`). -/
def rfc6901Unescape0 : List Char → List Char
  | [] => []
  | '~' :: '0' :: rest => '~' :: rfc6901Unescape0 rest
  | c :: rest => c :: rfc6901Unescape0 rest

/-- Split a character list at every `/`. -/
def splitSlash : List Char → List (List Char)
  | [] => [[]]
  | '/' :: rest => [] :: splitSlash rest
  | c :: rest =>
    match splitSlash rest with
    | [] => [[c]]
    | t :: ts => (c :: t) :: ts

/-- Modelled from the spec: parse an RFC 6901 JSON pointer into decoded
reference tokens; the empty pointer has no tokens, any other pointer must
begin with `/`. -/
def parsePointer (s : String) : Option (List String) :=
  match s.data with
  | [] => some []
  | '/' :: rest =>
      some ((splitSlash rest).map fun t => String.mk (rfc6901Unescape0 (rfc6901Unescape1 t)))
  | _ => none

/-- Modelled from the spec: an RFC 6901 array-index token — decimal digits
with no leading zero. -/
def parseArrayIndex (t : String) : Option Nat :=
  match t.data with
  | [] => none
  | cs =>
    if cs.all Char.isDigit && (cs.length = 1 || cs.head? ≠ some '0') then
      some (cs.foldl (fun acc c => acc * 10 + (c.toNat - '0'.toNat)) 0)
    else none

/-- Replace the value bound to a present key of an association list. -/
def updateAssoc (l : List (String × JValue)) (k : String) (v : JValue) :
    List (String × JValue) :=
  l.map fun kv => if kv.1 = k then (kv.1, v) else kv

/-- Modelled from the spec: the RFC 6902 `add` operation on a decoded
document — upsert a member at the final object token, insert (bounds
`0 ≤ i ≤ len`, or `-` for append) at the final array token, fail if any
intermediate reference does not resolve. -/
def addAt : JValue → List String → JValue → Option JValue
  | _, [], v => some v
  | JValue.obj l, [t], v =>
      some (JValue.obj (if (lookupJOpt l t).isSome then updateAssoc l t v else l ++ [(t, v)]))
  | JValue.arr l, [t], v =>
      if t = "-" then some (JValue.arr (l ++ [v]))
      else
        match parseArrayIndex t with
        | some i => if i ≤ l.length then some (JValue.arr (l.take i ++ v :: l.drop i)) else none
        | none => none
  | JValue.obj l, t :: ts, v =>
      match lookupJOpt l t with
      | some child => (addAt child ts v).map fun c => JValue.obj (updateAssoc l t c)
      | none => none
  | JValue.arr l, t :: ts, v =>
      match parseArrayIndex t with
      | some i =>
        match l.get? i with
        | some child => (addAt child ts v).map fun c => JValue.arr (l.set i c)
        | none => none
      | none => none
  | _, _ :: _, _ => none

/-- Modelled from the spec: the RFC 6902 `remove` operation — the target
location must exist; removing the whole document is not meaningful. -/
def removeAt : JValue → List String → Option JValue
  | _, [] => none
  | JValue.obj l, [t] =>
      if (lookupJOpt l t).isSome then some (JValue.obj (l.filter fun kv => kv.1 ≠ t)) else none
  | JValue.arr l, [t] =>
      match parseArrayIndex t with
      | some i => if i < l.length then some (JValue.arr (l.take i ++ l.drop (i + 1))) else none
      | none => none
  | JValue.obj l, t :: ts =>
      match lookupJOpt l t with
      | some child => (removeAt child ts).map fun c => JValue.obj (updateAssoc l t c)
      | none => none
  | JValue.arr l, t :: ts =>
      match parseArrayIndex t with
      | some i =>
        match l.get? i with
        | some child => (removeAt child ts).map fun c => JValue.arr (l.set i c)
        | none => none
      | none => none
  | _, _ :: _ => none

/-- Modelled from the spec: the RFC 6902 `replace` operation — the target
location must already exist. -/
def replaceAt : JValue → List String → JValue → Option JValue
  | _, [], v => some v
  | JValue.obj l, [t], v =>
      if (lookupJOpt l t).isSome then some (JValue.obj (updateAssoc l t v)) else none
  | JValue.arr l, [t], v =>
      match parseArrayIndex t with
      | some i => if i < l.length then some (JValue.arr (l.set i v)) else none
      | none => none
  | JValue.obj l, t :: ts, v =>
      match lookupJOpt l t with
      | some child => (replaceAt child ts v).map fun c => JValue.obj (updateAssoc l t c)
      | none => none
  | JValue.arr l, t :: ts, v =>
      match parseArrayIndex t with
      | some i =>
        match l.get? i with
        | some child => (replaceAt child ts v).map fun c => JValue.arr (l.set i c)
        | none => none
      | none => none
  | _, _ :: _, _ => none

/-- Modelled from the spec: apply one RFC 6902 operation with a
standards-conformant applicator; `none` is an application error. -/
def applyOp (doc : JValue) (o : Operation) : Option JValue :=
  match parsePointer o.path with
  | none => none
  | some toks =>
    if o.op = "add" then addAt doc toks o.value
    else if o.op = "remove" then removeAt doc toks
    else if o.op = "replace" then replaceAt doc toks o.value
    else none

/-- Modelled from the spec: apply a patch operation by operation, failing
as soon as one operation fails. -/
def applyPatch (doc : JValue) (ops : List Operation) : Option JValue :=
  ops.foldlM applyOp doc

/-- One iteration of the positional array loop, as a fold step: recurse via
`handleValues` at the aligned index, short-circuiting once an error state is
reached (matching the loop's early return). -/
def alignStep (la lb : List JValue) (p : String)
    (st : List Operation × Option String) (idx : Nat) :
    List Operation × Option String :=
  match st with
  | (ops, none) =>
    match handleValues (nthJ la idx) (nthJ lb idx) (makePathInt p idx) ops with
    | (ops2, none) => (ops2, none)
    | (_, some e) => ([], some e)
  | (ops, some e) => (ops, some e)

/-- The operations contributed by one target key of the object differ: an
`add` of the whole target value for a key absent from the source, else the
operations of the recursive `handleValues` on the two values. -/
def diffKeyOps (la : List (String × JValue)) (p : String)
    (kv : String × JValue) : List Operation :=
  match lookupJOpt la kv.1 with
  | none => [NewOperation "add" (makePath p kv.1) kv.2]
  | some av => (handleValues av kv.2 (makePath p kv.1) []).1

/-- The `remove` operations of the object differ: one per source key
absent from the target, in source iteration order. -/
def diffRemoveOps (la lb : List (String × JValue)) (p : String) :
    List Operation :=
  (la.filter fun kv => (lookupJOpt lb kv.1).isNone).map
    (fun kv => NewOperation "remove" (makePath p kv.1) JValue.null)

theorem typesAreCompatible_eq_kindCompatible (av bv : JValue) :
    typesAreCompatible av bv = kindCompatible (kindOf av) (kindOf bv) := by
  cases av <;> cases bv <;> rfl

theorem allValuesBasicOrNull_eq_flatObject (m : List (String × JValue)) :
    allValuesBasicOrNull m = flatObject m := by
  unfold allValuesBasicOrNull flatObject
  induction m with
  | nil => rfl
  | cons hd tl ih =>
    simp only [List.all_cons, ih]
    congr 1
    cases hd.2 <;> rfl

theorem isSimpleArray_eq_specSimpleArray (l : List JValue) :
    isSimpleArray l = specSimpleArray l := by
  induction l with
  | nil => rfl
  | cons hd tl ih =>
    cases hd with
    | str s => simpa [isSimpleArray, specSimpleArray, kindOf, isScalarKind] using ih
    | num q => simpa [isSimpleArray, specSimpleArray, kindOf, isScalarKind] using ih
    | bool b => simpa [isSimpleArray, specSimpleArray, kindOf, isScalarKind] using ih
    | obj m =>
      simp [isSimpleArray, specSimpleArray, kindOf, isScalarKind,
        allValuesBasicOrNull_eq_flatObject]
    | arr a => rfl
    | null => rfl

theorem removesDesc_eq_range' (p : String) (n : Nat) :
    ∀ c, removesDesc p n c =
      ((List.range' n c).reverse).map
        (fun i => NewOperation "remove" (makePathInt p i) JValue.null) := by
  intro c
  induction c with
  | zero => rfl
  | succ k ih =>
    have hc : List.range' n (k + 1) = List.range' n k ++ [n + k] := by
      have := @List.range'_concat 1 n k
      simpa using this
    rw [removesDesc, ih, hc]
    simp

theorem addsAsc_eq_range' (bt : List JValue) (p : String) :
    ∀ c i, addsAsc bt p i c =
      (List.range' i c).map
        (fun idx => NewOperation "add" (makePathInt p idx) (nthJ bt idx)) := by
  intro c
  induction c with
  | zero => intro i; rfl
  | succ k ih =>
    intro i
    rw [addsAsc, ih (i + 1), List.range'_succ i k 1]
    simp

theorem foldl_alignStep_error (la lb : List JValue) (p : String) (ops : List Operation)
    (e : String) : ∀ l : List Nat,
    l.foldl (alignStep la lb p) (ops, some e) = (ops, some e) := by
  intro l
  induction l with
  | nil => rfl
  | cons hd tl ih => simpa [alignStep] using ih

theorem alignLoop_eq_foldl (la lb : List JValue) (p : String) :
    ∀ c i patch, alignLoop la lb p patch i c =
      (List.range' i c).foldl (alignStep la lb p) (patch, none) := by
  intro c
  induction c with
  | zero => intro i patch; simp [alignLoop, List.range']
  | succ k ih =>
    intro i patch
    rw [List.range'_succ i k 1, alignLoop]
    match h : handleValues (nthJ la i) (nthJ lb i) (makePathInt p i) patch with
    | (patch2, none) =>
      simp only [List.foldl_cons, alignStep, h]
      exact ih (i + 1) patch2
    | (_, some e) =>
      simp only [List.foldl_cons, alignStep, h]
      exact (foldl_alignStep_error la lb p [] e (List.range' (i + 1) k)).symm

theorem diffLoopB_nil (la : List (String × JValue)) (p : String)
    (patch : List Operation) : diff.loopB la [] p patch = (patch, none) := by
  simp [diff.loopB]

theorem diffLoopB_cons_none {la : List (String × JValue)} {key : String}
    (bv' : JValue) (rest : List (String × JValue)) (p : String)
    (patch : List Operation) (hl : lookupJOpt la key = none) :
    diff.loopB la ((key, bv') :: rest) p patch =
      diff.loopB la rest p (patch ++ [NewOperation "add" (makePath p key) bv']) := by
  simp only [diff.loopB]
  split <;> simp_all

theorem diffLoopB_cons_some {la : List (String × JValue)} {key : String}
    {av' : JValue} (bv' : JValue) (rest : List (String × JValue)) (p : String)
    (patch : List Operation) (hl : lookupJOpt la key = some av') :
    diff.loopB la ((key, bv') :: rest) p patch =
      match handleValues av' bv' (makePath p key) patch with
      | (patch2, none) => diff.loopB la rest p patch2
      | (_, some e) => ([], some e) := by
  simp only [diff.loopB]
  split <;> simp_all

theorem handleValues_replace (av bv : JValue) (p : String) (patch : List Operation)
    (hc : typesAreCompatible av bv = false)
    (hnn : ¬(av = JValue.null ∧ bv = JValue.null)) :
    handleValues av bv p patch = (patch ++ [NewOperation "replace" p bv], none) := by
  cases av <;> cases bv <;> simp_all [handleValues, typesAreCompatible]

theorem handleValues_scalar (av bv : JValue) (p : String) (patch : List Operation)
    (ha : isBasicType av = true) (hb : isBasicType bv = true) :
    handleValues av bv p patch =
      (patch ++ (if matchesValue av bv then [] else [NewOperation "replace" p bv]),
        none) := by
  cases hm : matchesValue av bv <;> cases av <;> cases bv <;>
    simp_all [handleValues, typesAreCompatible, isBasicType]

theorem handleValues_exists :
    ∀ n av bv p, sizeOf av + sizeOf bv ≤ n →
      ∃ ops, ∀ patch, handleValues av bv p patch = (patch ++ ops, none) := by
  intro n
  induction n using Nat.strong_induction_on with
  | _ n IH =>
    intro av bv p hn
    cases av <;> cases bv
    case null.null =>
      exact ⟨[], fun patch => by simp [handleValues]⟩
    all_goals try (exact ⟨_, fun patch => handleValues_replace _ _ p patch rfl (by simp)⟩)
    all_goals try (exact ⟨_, fun patch => handleValues_scalar _ _ p patch rfl rfl⟩)
    case obj.obj la lb =>
      simp only [JValue.obj.sizeOf_spec] at hn
      have loopB : ∀ lb1, (∀ kv ∈ lb1, sizeOf kv.2 < sizeOf lb) → ∀ p',
          ∃ ops, ∀ patch', diff.loopB la lb1 p' patch' = (patch' ++ ops, none) := by
        intro lb1
        induction lb1 with
        | nil => exact fun _ p' => ⟨[], fun patch' => by simp [diffLoopB_nil]⟩
        | cons hd rest ihr =>
          intro hb p'
          obtain ⟨key, bv'⟩ := hd
          have hrest : ∀ kv ∈ rest, sizeOf kv.2 < sizeOf lb := fun kv hkv =>
            hb kv (List.mem_cons_of_mem _ hkv)
          have hbv : sizeOf bv' < sizeOf lb := by
            have := hb (key, bv') (List.mem_cons_self _ _)
            simpa using this
          obtain ⟨Y, hY⟩ := ihr hrest p'
          match hl : lookupJOpt la key with
          | none =>
            refine ⟨NewOperation "add" (makePath p' key) bv' :: Y, fun patch' => ?_⟩
            rw [diffLoopB_cons_none bv' rest p' patch' hl, hY]
            simp
          | some av' =>
            have hav : sizeOf av' < sizeOf la := lookupJOpt_sizeOf hl
            have hsz : sizeOf av' + sizeOf bv' < n := by omega
            obtain ⟨X, hX⟩ := IH _ hsz av' bv' (makePath p' key) (le_refl _)
            refine ⟨X ++ Y, fun patch' => ?_⟩
            rw [diffLoopB_cons_some bv' rest p' patch' hl, hX]
            simp only [hY]
            simp
      have hlb : ∀ kv ∈ lb, sizeOf kv.2 < sizeOf lb := fun kv hkv => pairMem_sizeOf hkv
      obtain ⟨L, hL⟩ := loopB lb hlb p
      refine ⟨L ++ (la.filter fun kv => (lookupJOpt lb kv.1).isNone).map
          (fun kv => NewOperation "remove" (makePath p kv.1) JValue.null),
        fun patch => ?_⟩
      simp only [handleValues, diff, hL]
      simp
    case arr.arr la lb =>
      simp only [JValue.arr.sizeOf_spec] at hn
      have alignA : ∀ c i, ∃ ops, ∀ patch',
          alignLoop la lb p patch' i c = (patch' ++ ops, none) := by
        intro c
        induction c with
        | zero => exact fun i => ⟨[], fun patch' => by simp [alignLoop]⟩
        | succ k ihc =>
          intro i
          have e1 := nthJ_sizeOf la i
          have e2 := nthJ_sizeOf lb i
          have hsz : sizeOf (nthJ la i) + sizeOf (nthJ lb i) < n := by omega
          obtain ⟨X, hX⟩ := IH _ hsz (nthJ la i) (nthJ lb i) (makePathInt p i) (le_refl _)
          obtain ⟨Y, hY⟩ := ihc (i + 1)
          refine ⟨X ++ Y, fun patch' => ?_⟩
          simp only [alignLoop, hX, hY]
          simp
      by_cases hs : (isSimpleArray la && isSimpleArray lb) = true
      · refine ⟨compareEditDistance la lb p, fun patch => ?_⟩
        simp [handleValues, hs]
      · obtain ⟨Y, hY⟩ := alignA (minInt la.length lb.length) 0
        refine ⟨removesDesc p (minInt la.length lb.length)
            (la.length - minInt la.length lb.length) ++
          addsAsc lb p (minInt la.length lb.length)
            (lb.length - minInt la.length lb.length) ++ Y, fun patch => ?_⟩
        simp only [Bool.not_eq_true] at hs
        simp only [handleValues, hs, Bool.false_eq_true, if_false, hY]
        simp

theorem handleValues_append (av bv : JValue) (p : String) (patch : List Operation) :
    handleValues av bv p patch = (patch ++ (handleValues av bv p []).1, none) := by
  obtain ⟨ops, h⟩ :=
    handleValues_exists (sizeOf av + sizeOf bv) av bv p (le_refl _)
  have h0 := h []
  have : (handleValues av bv p []).1 = ops := by rw [h0]; simp
  rw [h patch, this]

theorem handleValues_no_error (av bv : JValue) (p : String) (patch : List Operation) :
    (handleValues av bv p patch).2 = none := by
  rw [handleValues_append]

theorem diffLoopB_spec (la : List (String × JValue)) :
    ∀ (lb1 : List (String × JValue)) (p : String) (patch : List Operation),
      diff.loopB la lb1 p patch = (patch ++ lb1.flatMap (diffKeyOps la p), none) := by
  intro lb1
  induction lb1 with
  | nil => intro p patch; simp [diffLoopB_nil]
  | cons hd rest ih =>
    intro p patch
    obtain ⟨key, bv⟩ := hd
    match hl : lookupJOpt la key with
    | none =>
      rw [diffLoopB_cons_none bv rest p patch hl, ih]
      simp [diffKeyOps, hl]
    | some av =>
      rw [diffLoopB_cons_some bv rest p patch hl,
        handleValues_append av bv (makePath p key) patch]
      simp only []
      rw [ih]
      simp [diffKeyOps, hl]

theorem diff_spec (la lb : List (String × JValue)) (p : String)
    (patch : List Operation) :
    diff la lb p patch =
      (patch ++ lb.flatMap (diffKeyOps la p) ++ diffRemoveOps la lb p, none) := by
  simp only [diff, diffLoopB_spec, diffRemoveOps]

theorem handleValues_obj (la lb : List (String × JValue)) (p : String)
    (patch : List Operation) :
    handleValues (JValue.obj la) (JValue.obj lb) p patch = diff la lb p patch := by
  simp only [handleValues]

theorem handleValues_arr (la lb : List JValue) (p : String)
    (patch : List Operation) :
    handleValues (JValue.arr la) (JValue.arr lb) p patch =
      if isSimpleArray la && isSimpleArray lb then
        (patch ++ compareEditDistance la lb p, none)
      else
        alignLoop la lb p
          (patch ++
            removesDesc p (minInt la.length lb.length)
              (la.length - minInt la.length lb.length) ++
            addsAsc lb p (minInt la.length lb.length)
              (lb.length - minInt la.length lb.length))
          0 (minInt la.length lb.length) := by
  simp only [handleValues]

theorem mem_of_lookupJOpt_eq_some {la : List (String × JValue)} {k : String}
    {v : JValue} (h : lookupJOpt la k = some v) : (k, v) ∈ la := by
  induction la with
  | nil => simp [lookupJOpt] at h
  | cons hd rest ih =>
    obtain ⟨k', w⟩ := hd
    by_cases hk : k' = k
    · simp only [lookupJOpt, if_pos hk, Option.some.injEq] at h
      subst hk h
      exact List.mem_cons_self _ _
    · simp only [lookupJOpt, if_neg hk] at h
      exact List.mem_cons_of_mem _ (ih h)

theorem lookupJOpt_eq_some_of_mem {la : List (String × JValue)} {k : String}
    {v : JValue} (hnd : (la.map Prod.fst).Nodup) (hm : (k, v) ∈ la) :
    lookupJOpt la k = some v := by
  induction la with
  | nil => cases hm
  | cons hd rest ih =>
    obtain ⟨k', w⟩ := hd
    simp only [List.map_cons, List.nodup_cons] at hnd
    rcases List.mem_cons.mp hm with heq | hmem
    · obtain ⟨h1, h2⟩ := Prod.mk.injEq .. ▸ heq
      simp_all [lookupJOpt]
    · by_cases hk : k' = k
      · exfalso
        subst hk
        exact hnd.1 (List.mem_map.mpr ⟨(k', v), hmem, rfl⟩)
      · simp only [lookupJOpt, if_neg hk]
        exact ih hnd.2 hmem

theorem lookupJOpt_eq_none_iff {la : List (String × JValue)} {k : String} :
    lookupJOpt la k = none ↔ k ∉ la.map Prod.fst := by
  induction la with
  | nil => simp [lookupJOpt]
  | cons hd rest ih =>
    obtain ⟨k', w⟩ := hd
    by_cases hk : k' = k
    · subst hk
      simp [lookupJOpt]
    · simp only [lookupJOpt, if_neg hk, List.map_cons, List.mem_cons, ih]
      constructor
      · intro h hmem
        rcases hmem with h1 | h1
        · exact hk h1.symm
        · exact h h1
      · intro h h1
        exact h (Or.inr h1)

theorem lookupJOpt_perm {la la' : List (String × JValue)} (hp : la.Perm la')
    (hnd : (la.map Prod.fst).Nodup) (k : String) :
    lookupJOpt la k = lookupJOpt la' k := by
  have hnd' : (la'.map Prod.fst).Nodup := ((hp.map Prod.fst).nodup_iff).mp hnd
  match h : lookupJOpt la k with
  | none =>
    have hk := lookupJOpt_eq_none_iff.mp h
    have hk' : k ∉ la'.map Prod.fst := fun hc =>
      hk ((hp.map Prod.fst).mem_iff.mpr hc)
    exact (lookupJOpt_eq_none_iff.mpr hk').symm
  | some v =>
    have hm := mem_of_lookupJOpt_eq_some h
    exact (lookupJOpt_eq_some_of_mem hnd' (hp.mem_iff.mp hm)).symm

theorem lookupJOpt_isNone_perm {lb lb' : List (String × JValue)}
    (hp : lb.Perm lb') (k : String) :
    (lookupJOpt lb k).isNone = (lookupJOpt lb' k).isNone := by
  match h : lookupJOpt lb k, h' : lookupJOpt lb' k with
  | none, none => rfl
  | some v, some w => rfl
  | none, some w =>
    exfalso
    have hk := lookupJOpt_eq_none_iff.mp h
    have hm := mem_of_lookupJOpt_eq_some h'
    exact hk (List.mem_map.mpr ⟨(k, w), hp.mem_iff.mpr hm, rfl⟩)
  | some v, none =>
    exfalso
    have hk := lookupJOpt_eq_none_iff.mp h'
    have hm := mem_of_lookupJOpt_eq_some h
    exact hk (List.mem_map.mpr ⟨(k, v), hp.mem_iff.mp hm, rfl⟩)

theorem diffKeyOps_perm {la la' : List (String × JValue)} (ha : la.Perm la')
    (hnd : (la.map Prod.fst).Nodup) (p : String) :
    diffKeyOps la p = diffKeyOps la' p := by
  funext kv
  unfold diffKeyOps
  rw [lookupJOpt_perm ha hnd kv.1]

theorem diffRemoveOps_perm {la la' lb lb' : List (String × JValue)}
    (ha : la.Perm la') (hb : lb.Perm lb') (p : String) :
    (diffRemoveOps la lb p).Perm (diffRemoveOps la' lb' p) := by
  unfold diffRemoveOps
  have hq : (fun kv : String × JValue => (lookupJOpt lb kv.1).isNone)
      = (fun kv : String × JValue => (lookupJOpt lb' kv.1).isNone) := by
    funext kv
    exact lookupJOpt_isNone_perm hb kv.1
  rw [hq]
  exact (ha.filter _).map _

theorem diff_perm {la la' lb lb' : List (String × JValue)} (p : String)
    (ha : la.Perm la') (hb : lb.Perm lb')
    (hnd : (la.map Prod.fst).Nodup) :
    (diff la lb p []).1.Perm (diff la' lb' p []).1 := by
  rw [diff_spec, diff_spec]
  simp only [List.nil_append]
  exact ((hb.flatMap_right (diffKeyOps la p)).trans
    (by rw [diffKeyOps_perm ha hnd p])).append (diffRemoveOps_perm ha hb p)

/-- Claim C1 (code bug).  Round-trip fails on object keys equal to the
empty string: for A = obj with key `""` holding the object with `"b" = 1`
and B the same shape with `"b" = 2`, `CreatePatch` emits a single replace
at pointer `/b` (instead of `//b`, because `makePath` merges the empty
segment with its child), `A` and `B` are not value-equal, and a conformant
RFC 6902 applicator fails on the emitted patch, so applying it cannot
reproduce `B`. -/
theorem C1_roundtrip_empty_key_bug :
    CreatePatch (JValue.obj [("", JValue.obj [("b", JValue.num 1)])])
        (JValue.obj [("", JValue.obj [("b", JValue.num 2)])]) =
      ([NewOperation "replace" "/b" (JValue.num 2)], none) ∧
    jeq (JValue.obj [("", JValue.obj [("b", JValue.num 1)])])
        (JValue.obj [("", JValue.obj [("b", JValue.num 2)])]) = false ∧
    applyPatch (JValue.obj [("", JValue.obj [("b", JValue.num 1)])])
        [NewOperation "replace" "/b" (JValue.num 2)] = none := by
  refine ⟨?_, ?_, ?_⟩
  · simp [CreatePatch, handleValues, diff, diff.loopB, alignLoop, compareEditDistance,
      backtrace, editMatrix, matchesValue, isSimpleArray, allValuesBasicOrNull,
      isBasicType, typesAreCompatible, lookupJ, lookupJOpt, nthJ, minInt,
      makePathInt, makePath, rfc6901Encoder, NewOperation, removesDesc, addsAsc]
  · simp [jeq, lookupJOpt, nthJ]
  · simp [applyPatch, applyOp, parsePointer, splitSlash, rfc6901Unescape0,
      rfc6901Unescape1, replaceAt, parseArrayIndex, lookupJOpt, NewOperation,
      updateAssoc]

/-- Claim C2 (code bug).  Identity fails: for the simple array
A = ["x", obj with "k" = null], `CreatePatch A A` is not empty — because
`matchesValue` is false on a pair of nulls the flat object does not match
itself, and the traceback (testing `s[0]`, which is basic) emits a
replace at index 1. -/
theorem C2_identity_null_in_simple_array_bug :
    CreatePatch (JValue.arr [JValue.str "x", JValue.obj [("k", JValue.null)]])
        (JValue.arr [JValue.str "x", JValue.obj [("k", JValue.null)]]) =
      ([NewOperation "replace" "/1" (JValue.obj [("k", JValue.null)])], none) ∧
    (CreatePatch (JValue.arr [JValue.str "x", JValue.obj [("k", JValue.null)]])
        (JValue.arr [JValue.str "x", JValue.obj [("k", JValue.null)]])).1 ≠ [] := by
  constructor <;>
    simp [CreatePatch, handleValues, diff, diff.loopB, alignLoop, compareEditDistance,
      backtrace, editMatrix, matchesValue, isSimpleArray, allValuesBasicOrNull,
      isBasicType, typesAreCompatible, lookupJ, lookupJOpt, nthJ, minInt,
      makePathInt, makePath, rfc6901Encoder, NewOperation, removesDesc, addsAsc]
  all_goals decide

/-- Claim C3 (counterexample).  At s = ["x", obj("k" = "a")],
t = ["x", obj("k" = "b")], the traceback takes the substitution step at
cell (2,2) (the remove and add guards fail, the substitution guard holds),
the source element at index 1 is not a scalar, yet a single coarse
replace at `/1` is emitted rather than the recursive structural diff the
claim prescribes — the code tests `s[0]`, not `s[i-1]`. -/
theorem C3_substitution_first_element_counterexample :
    (editMatrix [JValue.str "x", JValue.obj [("k", JValue.str "a")]]
        [JValue.str "x", JValue.obj [("k", JValue.str "b")]] 1 1 + 1 =
      editMatrix [JValue.str "x", JValue.obj [("k", JValue.str "a")]]
        [JValue.str "x", JValue.obj [("k", JValue.str "b")]] 2 2) ∧
    ¬(editMatrix [JValue.str "x", JValue.obj [("k", JValue.str "a")]]
        [JValue.str "x", JValue.obj [("k", JValue.str "b")]] 1 2 + 1 =
      editMatrix [JValue.str "x", JValue.obj [("k", JValue.str "a")]]
        [JValue.str "x", JValue.obj [("k", JValue.str "b")]] 2 2) ∧
    ¬(editMatrix [JValue.str "x", JValue.obj [("k", JValue.str "a")]]
        [JValue.str "x", JValue.obj [("k", JValue.str "b")]] 2 1 + 1 =
      editMatrix [JValue.str "x", JValue.obj [("k", JValue.str "a")]]
        [JValue.str "x", JValue.obj [("k", JValue.str "b")]] 2 2) ∧
    isBasicType (nthJ [JValue.str "x", JValue.obj [("k", JValue.str "a")]] 1) = false ∧
    compareEditDistance [JValue.str "x", JValue.obj [("k", JValue.str "a")]]
        [JValue.str "x", JValue.obj [("k", JValue.str "b")]] "" =
      [NewOperation "replace" "/1" (JValue.obj [("k", JValue.str "b")])] ∧
    compareEditDistance [JValue.str "x", JValue.obj [("k", JValue.str "a")]]
        [JValue.str "x", JValue.obj [("k", JValue.str "b")]] "" ≠
      (handleValues (nthJ [JValue.str "x", JValue.obj [("k", JValue.str "a")]] 1)
          (nthJ [JValue.str "x", JValue.obj [("k", JValue.str "b")]] 1)
          (makePathInt "" 1) []).1 ++
        backtrace [JValue.str "x", JValue.obj [("k", JValue.str "a")]]
          [JValue.str "x", JValue.obj [("k", JValue.str "b")]] "" 1 1 := by
  refine ⟨?_, ?_, ?_, ?_, ?_, ?_⟩ <;>
    simp [CreatePatch, handleValues, diff, diff.loopB, alignLoop, compareEditDistance,
      backtrace, editMatrix, matchesValue, isSimpleArray, allValuesBasicOrNull,
      isBasicType, typesAreCompatible, lookupJ, lookupJOpt, nthJ, minInt,
      makePathInt, makePath, rfc6901Encoder, NewOperation, removesDesc, addsAsc]
  all_goals decide

/-- Claim C3, amended.  When the substitution guard is reached and holds
at cell (i, j), the traceback tests the kind of the FIRST source element
`s[0]` (not `s[i-1]`): if `s[0]` is basic it emits a single replace at
source index i-1 with `t[j-1]`, otherwise it emits the operations of the
recursive `handleValues` on the aligned pair `(s[i-1], t[j-1])`. -/
theorem C3_substitution_branch_amended (s t : List JValue) (p : String) (i j : Nat)
    (h1 : ¬(0 < i ∧ editMatrix s t (i - 1) j + 1 = editMatrix s t i j))
    (h2 : ¬(0 < j ∧ editMatrix s t i (j - 1) + 1 = editMatrix s t i j))
    (h3 : 0 < i ∧ 0 < j ∧ editMatrix s t (i - 1) (j - 1) + 1 = editMatrix s t i j) :
    backtrace s t p i j =
      if isBasicType (nthJ s 0) then
        NewOperation "replace" (makePathInt p (i - 1)) (nthJ t (j - 1)) ::
          backtrace s t p (i - 1) (j - 1)
      else
        (handleValues (nthJ s (i - 1)) (nthJ t (j - 1)) (makePathInt p (i - 1)) []).1 ++
          backtrace s t p (i - 1) (j - 1) := by
  rw [backtrace, dif_neg h1, dif_neg h2, dif_pos h3]

theorem C3_substitution_branch_amended_witness :
    (¬(0 < 2 ∧ editMatrix [JValue.str "x", JValue.obj [("k", JValue.str "a")]]
        [JValue.str "x", JValue.obj [("k", JValue.str "b")]] 1 2 + 1 =
      editMatrix [JValue.str "x", JValue.obj [("k", JValue.str "a")]]
        [JValue.str "x", JValue.obj [("k", JValue.str "b")]] 2 2)) ∧
    backtrace [JValue.str "x", JValue.obj [("k", JValue.str "a")]]
        [JValue.str "x", JValue.obj [("k", JValue.str "b")]] "" 2 2 =
      if isBasicType (nthJ [JValue.str "x", JValue.obj [("k", JValue.str "a")]] 0) then
        NewOperation "replace" (makePathInt "" 1)
            (nthJ [JValue.str "x", JValue.obj [("k", JValue.str "b")]] 1) ::
          backtrace [JValue.str "x", JValue.obj [("k", JValue.str "a")]]
            [JValue.str "x", JValue.obj [("k", JValue.str "b")]] "" 1 1
      else
        (handleValues (nthJ [JValue.str "x", JValue.obj [("k", JValue.str "a")]] 1)
            (nthJ [JValue.str "x", JValue.obj [("k", JValue.str "b")]] 1)
            (makePathInt "" 1) []).1 ++
          backtrace [JValue.str "x", JValue.obj [("k", JValue.str "a")]]
            [JValue.str "x", JValue.obj [("k", JValue.str "b")]] "" 1 1 := by
  constructor
  · simp [editMatrix, matchesValue, nthJ, lookupJ, minInt]
  · exact C3_substitution_branch_amended _ _ "" 2 2
      (by simp [editMatrix, matchesValue, nthJ, lookupJ, minInt])
      (by simp [editMatrix, matchesValue, nthJ, lookupJ, minInt])
      (by simp [editMatrix, matchesValue, nthJ, lookupJ, minInt])

/-- Claim C4 (confirmed).  The homogeneity classifier of the source equals
the claim's description (scan stops at the first object/array element:
flat first-object means simple, array means non-simple, a scanned
non-scalar means non-simple), and the array differ takes the edit-distance
path exactly when both arrays are classified simple, the positional path
otherwise. -/
theorem C4_simple_array_classification :
    (∀ a : List JValue, isSimpleArray a = specSimpleArray a) ∧
    (∀ (la lb : List JValue) (p : String) (patch : List Operation),
      handleValues (JValue.arr la) (JValue.arr lb) p patch =
        if specSimpleArray la && specSimpleArray lb then
          (patch ++ compareEditDistance la lb p, none)
        else
          alignLoop la lb p
            (patch ++
              removesDesc p (minInt la.length lb.length)
                (la.length - minInt la.length lb.length) ++
              addsAsc lb p (minInt la.length lb.length)
                (lb.length - minInt la.length lb.length))
            0 (minInt la.length lb.length)) := by
  refine ⟨isSimpleArray_eq_specSimpleArray, fun la lb p patch => ?_⟩
  rw [handleValues_arr, isSimpleArray_eq_specSimpleArray la,
    isSimpleArray_eq_specSimpleArray lb]

/-- Claim C5 (counterexample).  Two representations of the same JSON value
(the same map bindings in the two iteration orders Go may produce) are
value-equal, yet `CreatePatch` against the empty object returns the two
remove operations in different orders: the operation sequence is not a
function of the JSON value alone. -/
theorem C5_determinism_counterexample :
    jeq (JValue.obj [("a", JValue.num 1), ("b", JValue.num 2)])
        (JValue.obj [("b", JValue.num 2), ("a", JValue.num 1)]) = true ∧
    CreatePatch (JValue.obj [("a", JValue.num 1), ("b", JValue.num 2)])
        (JValue.obj []) ≠
      CreatePatch (JValue.obj [("b", JValue.num 2), ("a", JValue.num 1)])
        (JValue.obj []) := by
  constructor
  · simp [jeq, lookupJOpt, nthJ]
  · simp [CreatePatch, handleValues, diff, diff.loopB, alignLoop, compareEditDistance,
      backtrace, editMatrix, matchesValue, isSimpleArray, allValuesBasicOrNull,
      isBasicType, typesAreCompatible, lookupJ, lookupJOpt, nthJ, minInt,
      makePathInt, makePath, rfc6901Encoder, NewOperation, removesDesc, addsAsc,
      Operation.mk.injEq]

/-- Claim C5, amended.  `CreatePatch` on objects is deterministic up to
map iteration order: permuting the bindings of either input object (with
well-formed, duplicate-free source keys) permutes the operation sequence —
the same operations with the same contents are produced, only their order
can differ between invocations. -/
theorem C5_determinism_up_to_key_order (la la' lb lb' : List (String × JValue))
    (ha : la.Perm la') (hb : lb.Perm lb') (hnd : (la.map Prod.fst).Nodup) :
    (CreatePatch (JValue.obj la) (JValue.obj lb)).1.Perm
      (CreatePatch (JValue.obj la') (JValue.obj lb')).1 := by
  simp only [CreatePatch, handleValues_obj]
  exact diff_perm "" ha hb hnd

theorem C5_determinism_up_to_key_order_witness :
    ([("a", JValue.num 1), ("b", JValue.num 2)] : List (String × JValue)).Perm
        [("b", JValue.num 2), ("a", JValue.num 1)] ∧
    (([("a", JValue.num 1), ("b", JValue.num 2)] :
        List (String × JValue)).map Prod.fst).Nodup ∧
    (CreatePatch (JValue.obj [("a", JValue.num 1), ("b", JValue.num 2)])
        (JValue.obj [])).1.Perm
      (CreatePatch (JValue.obj [("b", JValue.num 2), ("a", JValue.num 1)])
        (JValue.obj [])).1 :=
  ⟨List.Perm.swap ("b", JValue.num 2) ("a", JValue.num 1) [],
   by decide,
   C5_determinism_up_to_key_order _ _ _ _
     (List.Perm.swap ("b", JValue.num 2) ("a", JValue.num 1) [])
     (List.Perm.refl _) (by decide)⟩

/-- Claim C6 (confirmed).  Whenever the two kinds are incompatible in the
claim's sense (object only with object, array only with array, scalars
with scalars, null with nothing), the dispatcher emits no operation if
both values are null, and otherwise appends exactly one replace at the
current path carrying the target value, recursing into neither value. -/
theorem C6_kind_compatibility_dispatch (av bv : JValue) (p : String)
    (patch : List Operation)
    (h : kindCompatible (kindOf av) (kindOf bv) = false) :
    handleValues av bv p patch =
      (if isNullJ av && isNullJ bv then patch
       else patch ++ [NewOperation "replace" p bv], none) := by
  have hc : typesAreCompatible av bv = false := by
    rw [typesAreCompatible_eq_kindCompatible, h]
  by_cases hn : av = JValue.null ∧ bv = JValue.null
  · obtain ⟨h1, h2⟩ := hn
    subst h1; subst h2
    simp [handleValues, isNullJ]
  · rw [handleValues_replace av bv p patch hc hn]
    have hfalse : (isNullJ av && isNullJ bv) = false := by
      cases av <;> cases bv <;> simp_all [isNullJ]
    rw [hfalse]
    simp

theorem C6_kind_compatibility_dispatch_witness :
    kindCompatible (kindOf (JValue.str "x")) (kindOf JValue.null) = false ∧
    handleValues (JValue.str "x") JValue.null "" [] =
      (if isNullJ (JValue.str "x") && isNullJ JValue.null then ([] : List Operation)
       else [] ++ [NewOperation "replace" "" JValue.null], none) :=
  ⟨rfl, C6_kind_compatibility_dispatch (JValue.str "x") JValue.null "" [] rfl⟩

/-- Claim C7 (confirmed).  On the positional path (at least one array
non-simple), with n the minimum length, the differ emits removes for the
source indices above n in descending order, then adds with the target
elements for target indices from n upward in ascending order, then folds
the value dispatcher over the aligned indices 0..n-1 — never a bulk
replace of the whole array. -/
theorem C7_positional_array_diff (la lb : List JValue) (p : String)
    (patch : List Operation)
    (h : (isSimpleArray la && isSimpleArray lb) = false) :
    handleValues (JValue.arr la) (JValue.arr lb) p patch =
      (List.range' 0 (minInt la.length lb.length)).foldl (alignStep la lb p)
        (patch ++
          ((List.range' (minInt la.length lb.length)
              (la.length - minInt la.length lb.length)).reverse).map
            (fun i => NewOperation "remove" (makePathInt p i) JValue.null) ++
          (List.range' (minInt la.length lb.length)
              (lb.length - minInt la.length lb.length)).map
            (fun i => NewOperation "add" (makePathInt p i) (nthJ lb i)),
          none) := by
  rw [handleValues_arr, if_neg (by simp [h]), alignLoop_eq_foldl,
    removesDesc_eq_range', addsAsc_eq_range']

theorem C7_positional_array_diff_witness :
    ((isSimpleArray [JValue.arr []] && isSimpleArray ([] : List JValue)) = false) ∧
    handleValues (JValue.arr [JValue.arr []]) (JValue.arr []) "" [] =
      (List.range' 0 (minInt [JValue.arr []].length ([] : List JValue).length)).foldl
        (alignStep [JValue.arr []] [] "")
        ([] ++
          ((List.range' (minInt [JValue.arr []].length ([] : List JValue).length)
              ([JValue.arr []].length -
                minInt [JValue.arr []].length ([] : List JValue).length)).reverse).map
            (fun i => NewOperation "remove" (makePathInt "" i) JValue.null) ++
          (List.range' (minInt [JValue.arr []].length ([] : List JValue).length)
              (([] : List JValue).length -
                minInt [JValue.arr []].length ([] : List JValue).length)).map
            (fun i => NewOperation "add" (makePathInt "" i) (nthJ [] i)),
          none) :=
  ⟨by simp [isSimpleArray],
   C7_positional_array_diff [JValue.arr []] [] "" [] (by simp [isSimpleArray])⟩

/-- Claim C8 (confirmed).  The serialized operation object carries the
`value` member exactly when the value is non-absent (non-null in the Go
representation) or the operation kind is add or replace; in particular a
replace of JSON null serializes with an explicit `"value":null`, while a
remove with absent value omits the member. -/
theorem C8_operation_serialization :
    (∀ o : Operation,
      "value" ∈ (marshalFields o).map Prod.fst ↔
        (o.value ≠ JValue.null ∨ o.op = "add" ∨ o.op = "replace")) ∧
    MarshalJSON (Operation.mk "replace" "/a" JValue.null) =
      "\x7b\"op\":\"replace\",\"path\":\"/a\",\"value\":null\x7d" ∧
    MarshalJSON (Operation.mk "remove" "/b" JValue.null) =
      "\x7b\"op\":\"remove\",\"path\":\"/b\"\x7d" := by
  refine ⟨fun o => ?_, ?_, ?_⟩
  · obtain ⟨op, path, v⟩ := o
    cases v <;>
      simp [marshalFields, marshalEmitsValue, isNullJ] <;>
      tauto
  · simp [MarshalJSON, marshalEmitsValue, serializeJValue, isNullJ]
  · simp [MarshalJSON, marshalEmitsValue, serializeJValue, isNullJ]

/-- Claim C9 (confirmed).  The deep-equality predicate returns false on a
pair of JSON nulls, hence is not reflexive on values containing null: a
flat object binding a key to null does not match itself, and the
edit-distance matrix therefore assigns cost 1 to the aligned pair of two
copies of that object. -/
theorem C9_matchesValue_null_irreflexive :
    matchesValue JValue.null JValue.null = false ∧
    matchesValue (JValue.obj [("k", JValue.null)])
      (JValue.obj [("k", JValue.null)]) = false ∧
    editMatrix [JValue.obj [("k", JValue.null)]]
      [JValue.obj [("k", JValue.null)]] 1 1 = 1 := by
  refine ⟨?_, ?_, ?_⟩ <;> simp [editMatrix, matchesValue, lookupJ, nthJ, minInt]

/-- Claim C10 (confirmed).  The diff engine has no reachable error path:
`CreatePatch` always returns a `nil` error for in-model inputs, and the
modelled `CreatePatchFromBytes` can fail only with the invalid-document
error, only when one of its byte inputs fails to decode. -/
theorem C10_no_error_paths :
    (∀ a b : JValue, (CreatePatch a b).2 = none) ∧
    (∀ (pa pb : Option JValue) (e : String),
      CreatePatchFromBytes pa pb = Except.error e →
        e = errBadJSONDoc ∧ (pa = none ∨ pb = none)) := by
  constructor
  · intro a b
    unfold CreatePatch
    exact handleValues_no_error a b "" []
  · intro pa pb e h
    cases pa with
    | none =>
      simp [CreatePatchFromBytes] at h
      exact ⟨h.symm, Or.inl rfl⟩
    | some a =>
      cases pb with
      | none =>
        simp [CreatePatchFromBytes] at h
        exact ⟨h.symm, Or.inr rfl⟩
      | some b =>
        exfalso
        have hsnd := handleValues_no_error a b "" []
        unfold CreatePatchFromBytes CreatePatch at h
        rcases hv : handleValues a b "" [] with ⟨ops, err⟩
        rw [hv] at hsnd
        simp only at hsnd
        subst hsnd
        simp [hv] at h

theorem C10_no_error_paths_witness :
    (CreatePatch JValue.null JValue.null).2 = none ∧
    (errBadJSONDoc = errBadJSONDoc ∧
      ((none : Option JValue) = none ∨ (none : Option JValue) = none)) :=
  ⟨C10_no_error_paths.1 JValue.null JValue.null,
   C10_no_error_paths.2 none none errBadJSONDoc rfl⟩
